import Mathlib

/-!
Verification development for the `stirrups` dependency-injection runtime.

The repository provides `stirrups/context.py`, `stirrups/app.py` and
`stirrups/exceptions.py`; the resolution engine `stirrups/injection.py`
(Registry, Provider, Injector, Instance/Factory, `generate_iface_key`,
`injectable_factory`) is imported by those modules but its source is not
part of the checkout, so it is modelled here from the specification
(spec.md §3–§4).  Python object identity is modelled by tagging every
constructed value with an allocation id drawn from a monotone counter
threaded through resolution; the Injector's per-session cache and the
fresh-id counter form the resolution state.  Unbounded recursive
resolution (the spec notes cyclic graphs simply recurse) is modelled
with an explicit fuel parameter; running out of fuel is a dedicated
error distinct from the error taxonomy of `exceptions.py`.
-/

namespace Stirrups

/-- Registration keys are strings (spec §3 "Key derivation"). -/
abbrev Key := String

/-- Modelled from the spec: interfaces/types that can be registered or
declared as dependencies.  Built-in/primitive types are fixed
alternatives; a user-declared type carries its declared name
(spec §3 "Key derivation"). -/
inductive Iface where
  | int
  | str
  | bool
  | float
  | user (name : String)
deriving DecidableEq

/-- Modelled from the spec: `generate_iface_key` of the missing
`injection.py` — the deterministic map from an interface to its string
key: a built-in maps to its fixed lowercase name (integer ↦ "int"), a
user-declared type to its declared name (spec §3). -/
def generate_iface_key : Iface → Key
  | .int => "int"
  | .str => "str"
  | .bool => "bool"
  | .float => "float"
  | .user n => n

/-- A realized (constructed) value: the name of the class/constructor
that produced it, an allocation identity (models Python object
identity), and the arguments the constructor was applied to. -/
inductive Value where
  | mk (ctorName : String) (id : Nat) (fields : List Value)

/-- Name of the class/constructor that produced the value. -/
def Value.ctorName : Value → String
  | .mk n _ _ => n

/-- Allocation identity of the value (models reference identity). -/
def Value.id : Value → Nat
  | .mk _ i _ => i

/-- The arguments the constructor was applied to. -/
def Value.fields : Value → List Value
  | .mk _ _ fs => fs

/-- Modelled from the spec: a constructor (class or function) together
with its introspected dependency signature — the ordered list of
`(parameter name, declared interface or none)` pairs (spec §3
"Factory", §4.2). -/
structure Ctor where
  name : String
  params : List (String × Option Iface)

/-- Modelled from the spec: the polymorphic Injectable of the missing
`injection.py` — either an already-built `Instance`, or a `Factory`
wrapping a constructor plus a cache flag; `fid` is the Factory's
identity, used as the Injector's cache key (spec §3). -/
inductive Injectable where
  | Instance (v : Value)
  | Factory (fid : Nat) (ctor : Ctor) (cache : Bool)

/-- Modelled from the spec: `injectable_factory` of the missing
`injection.py` — wraps a constructor as a Factory injectable with the
given cache flag (spec §4.2 `make_factory`). -/
def injectable_factory (fid : Nat) (c : Ctor) (cache : Bool) : Injectable :=
  .Factory fid c cache

/-- Modelled from the spec: the key derived from an Injectable's own
underlying type, used when neither an explicit key nor an iface is
supplied at registration (spec §4.3). -/
def Injectable.selfKey : Injectable → Key
  | .Instance v => v.ctorName
  | .Factory _ c _ => c.name

/-- Modelled from the spec: a registry slot is either in single mode or
in list mode, fixed at first registration (spec §3 "Keyed Registry"). -/
inductive RegEntry where
  | single (inj : Injectable)
  | listMode (injs : List Injectable)

/-- Modelled from the spec: the Keyed Registry of Injectables — a
mapping from string key to a single Injectable or an append-ordered
sequence of Injectables (spec §3). -/
abbrev Registry := List (Key × RegEntry)

/-- The error taxonomy of `stirrups/exceptions.py`, plus the mode
mismatch the spec leaves open (§9) and fuel exhaustion of the model. -/
inductive Err where
  | ItemExists (key : Key)
  | ItemNotFound (key : Key)
  | InjectionError (key : Key)
  | DependencyInjectionError (param : String) (key : Key)
  | BadSignature (param : String)
  | ContextNotMountedError
  | ModeMismatch (key : Key)
  | OutOfFuel
deriving DecidableEq

/-- Lookup of a key in a registry (first binding wins; bindings for a
given key are kept unique by `regSet`). -/
def regFind : Registry → Key → Option RegEntry
  | [], _ => none
  | (k1, e) :: r, k => if k1 == k then some e else regFind r k

/-- Replace the binding of `k` in place, or append a new binding. -/
def regSet : Registry → Key → RegEntry → Registry
  | [], k, e => [(k, e)]
  | (k1, e1) :: r, k, e =>
    if k1 == k then (k, e) :: r else (k1, e1) :: regSet r k e

/-- Modelled from the spec: `Registry.register` of the missing
`injection.py` (spec §4.1) — an unused key is created in the mode
implied by `aslist`; a single-mode key is overwritten only with
`force`, otherwise registration fails with `ItemExists`; a list-mode
key appends; a single/list mode mismatch is the spec's open question
(§9) and is modelled as a dedicated error. -/
def Registry.register (r : Registry) (k : Key) (inj : Injectable)
    (aslist : Bool) (force : Bool) : Except Err Registry :=
  match regFind r k with
  | none =>
    .ok (regSet r k (if aslist then .listMode [inj] else .single inj))
  | some (.single _) =>
    if aslist then .error (.ModeMismatch k)
    else if force then .ok (regSet r k (.single inj))
    else .error (.ItemExists k)
  | some (.listMode injs) =>
    if aslist then .ok (regSet r k (.listMode (injs ++ [inj])))
    else .error (.ModeMismatch k)

/-- Modelled from the spec: `Registry.get` (spec §4.1) — the entry at
`k`, or `ItemNotFound`. -/
def Registry.get (r : Registry) (k : Key) : Except Err RegEntry :=
  match regFind r k with
  | none => .error (.ItemNotFound k)
  | some e => .ok e

/-- Modelled from the spec: a Provider — a named scope owning one Keyed
Registry of Injectables (spec §3). -/
structure Provider where
  name : Option String
  registry : Registry

/-- Modelled from the spec: the effective registration key of
`Provider.register` — an explicit key wins; else it is derived from
the iface; else from the Injectable's own underlying type (spec §4.3). -/
def provider_effective_key (key : Option Key) (iface : Option Iface)
    (inj : Injectable) : Key :=
  match key with
  | some k => k
  | none =>
    match iface with
    | some i => generate_iface_key i
    | none => inj.selfKey

/-- Modelled from the spec: `Provider.register` (spec §4.3) — resolves
the effective key and delegates to the Keyed Registry with the same
force/aslist semantics. -/
def Provider.register (p : Provider) (inj : Injectable) (key : Option Key)
    (iface : Option Iface) (aslist : Bool) (force : Bool) :
    Except Err Provider :=
  match Registry.register p.registry
      (provider_effective_key key iface inj) inj aslist force with
  | .error e => .error e
  | .ok r => .ok { p with registry := r }

/-- The Injector's mutable resolution state: the per-session cache
mapping Factory identity to realized value, and the fresh allocation
counter modelling Python object allocation. -/
structure InjState where
  cache : List (Nat × Value)
  fresh : Nat

/-- Lookup of a Factory identity in the Injector's cache. -/
def cacheFind : List (Nat × Value) → Nat → Option Value
  | [], _ => none
  | (fid1, v) :: c, fid => if fid1 == fid then some v else cacheFind c fid

/-- Modelled from the spec: the effective lookup key of `Injector.get`
and `Injector.get_list` — the explicit key when one is supplied, else
the key derived from the requested interface (spec §4.4 step 1). -/
def effective_key (key : Option Key) (iface : Iface) : Key :=
  match key with
  | some k => k
  | none => generate_iface_key iface

/-- Modelled from the spec: scan of the Injector's ordered Provider
list — the first Provider whose registry contains the key wins
(spec §4.4 step 2). -/
def findEntry : List Provider → Key → Option RegEntry
  | [], _ => none
  | p :: ps, k =>
    match regFind p.registry k with
    | some e => some e
    | none => findEntry ps k

mutual

/-- Modelled from the spec: `Injector.get` (spec §4.4) — compute the
effective key, scan the Providers in priority order (`InjectionError`
when none holds the key), and realize the single Injectable found;
calling `get` on a list-mode key is the spec's open question (§9),
modelled as a mode-mismatch error. -/
def inj_get (ps : List Provider) (fuel : Nat) (iface : Iface)
    (key : Option Key) (args : List Value) (st : InjState) :
    Except Err (Value × InjState) :=
  match fuel with
  | 0 => .error .OutOfFuel
  | f + 1 =>
    match findEntry ps (effective_key key iface) with
    | none => .error (.InjectionError (effective_key key iface))
    | some (.single inj) => realize_injectable ps f inj args st
    | some (.listMode _) => .error (.ModeMismatch (effective_key key iface))

/-- Modelled from the spec: realization of one Injectable (spec §4.2,
§4.4 step 4).  An `Instance` returns its wrapped value unchanged.  A
cache-enabled `Factory` previously realized returns the cached value;
otherwise the Factory binds the explicitly supplied positional values
to its earliest parameters, resolves every remaining parameter through
the Injector, invokes the constructor (allocating a fresh identity),
and caches the result exactly when `cache` is true. -/
def realize_injectable (ps : List Provider) (fuel : Nat) (inj : Injectable)
    (args : List Value) (st : InjState) : Except Err (Value × InjState) :=
  match fuel with
  | 0 => .error .OutOfFuel
  | f + 1 =>
    match inj with
    | .Instance v => .ok (v, st)
    | .Factory fid c cch =>
      if cch then
        match cacheFind st.cache fid with
        | some v => .ok (v, st)
        | none =>
          match realize_deps ps f (c.params.drop args.length) st with
          | .error e => .error e
          | .ok (vals, st1) =>
            let v := Value.mk c.name st1.fresh (args ++ vals)
            .ok (v, ⟨(fid, v) :: st1.cache, st1.fresh + 1⟩)
      else
        match realize_deps ps f (c.params.drop args.length) st with
        | .error e => .error e
        | .ok (vals, st1) =>
          let v := Value.mk c.name st1.fresh (args ++ vals)
          .ok (v, ⟨st1.cache, st1.fresh + 1⟩)

/-- Modelled from the spec: resolution of the remaining (not explicitly
bound) parameters of a Factory, in declaration order (spec §4.2, §4.4
step 4).  A parameter with no declared interface fails with the
source's `BadSignature` (the spec's `UnresolvedParameter`); a failure
of a nested resolution is wrapped as `DependencyInjectionError` naming
the failing parameter and its declared interface's key. -/
def realize_deps (ps : List Provider) (fuel : Nat)
    (params : List (String × Option Iface)) (st : InjState) :
    Except Err (List Value × InjState) :=
  match fuel with
  | 0 => .error .OutOfFuel
  | f + 1 =>
    match params with
    | [] => .ok ([], st)
    | (prm, none) :: _ => .error (.BadSignature prm)
    | (prm, some di) :: rest =>
      match inj_get ps f di none [] st with
      | .error _ =>
        .error (.DependencyInjectionError prm (generate_iface_key di))
      | .ok (v, st1) =>
        match realize_deps ps f rest st1 with
        | .error e => .error e
        | .ok (vs, st2) => .ok (v :: vs, st2)

end

/-- Modelled from the spec: realization of every Injectable of a
list-mode entry in insertion order, each independently realized (and
cached per Factory identity) through the same state (spec §4.4
`get_list`). -/
def realize_list (ps : List Provider) (fuel : Nat) (injs : List Injectable)
    (args : List Value) (st : InjState) :
    Except Err (List Value × InjState) :=
  match fuel with
  | 0 => .error .OutOfFuel
  | f + 1 =>
    match injs with
    | [] => .ok ([], st)
    | inj :: rest =>
      match realize_injectable ps f inj args st with
      | .error e => .error e
      | .ok (v, st1) =>
        match realize_list ps f rest args st1 with
        | .error e => .error e
        | .ok (vs, st2) => .ok (v :: vs, st2)

/-- Modelled from the spec: `Injector.get_list` (spec §4.4) — same
lookup as `get`, but requires the stored entry to be list-mode and
realizes every Injectable in insertion order. -/
def inj_get_list (ps : List Provider) (fuel : Nat) (iface : Iface)
    (key : Option Key) (args : List Value) (st : InjState) :
    Except Err (List Value × InjState) :=
  match fuel with
  | 0 => .error .OutOfFuel
  | f + 1 =>
    match findEntry ps (effective_key key iface) with
    | none => .error (.InjectionError (effective_key key iface))
    | some (.single _) => .error (.ModeMismatch (effective_key key iface))
    | some (.listMode injs) => realize_list ps f injs args st

/-- Modelled from the spec: `Injector.resolve` (spec §4.4) — wraps the
constructor as a transient cache-disabled Factory and realizes it
immediately, without registering it in any Provider; `tfid` is the
transient Factory's identity. -/
def inj_resolve (ps : List Provider) (fuel : Nat) (tfid : Nat) (c : Ctor)
    (args : List Value) (st : InjState) : Except Err (Value × InjState) :=
  realize_injectable ps fuel (injectable_factory tfid c false) args st

/-- The session façade of `stirrups/context.py` (`class Context`): a
mounted flag, the private local provider, and the extra providers
handed over at mount.  The Python Injector holds `[local_provider,
*providers]` by reference, so the effective provider list is recomputed
from the current `local_provider` (see `ContextM.provider_list`). -/
structure ContextM where
  mounted : Bool
  local_provider : Provider
  extra_providers : List Provider

/-- The Injector's provider list of a context, per `Context.mount`
(context.py line 100): the local provider first, then the providers
passed at mount. -/
def ContextM.provider_list (c : ContextM) : List Provider :=
  c.local_provider :: c.extra_providers

/-- Model of `Context.__init__` (context.py lines 87–96): a fresh unmounted
context whose local provider holds the context object itself as an
`Instance` registered under `iface=self.__class__` — here the context
object is the value `selfVal` and its class name is
`selfVal.ctorName`.  Registration on the empty provider cannot fail;
the error branch is unreachable. -/
def Context.init (selfVal : Value) : ContextM :=
  { mounted := false
    extra_providers := []
    local_provider :=
      match Provider.register ⟨none, []⟩ (.Instance selfVal) none
          (some (.user selfVal.ctorName)) false false with
      | .ok p => p
      | .error _ => ⟨none, []⟩ }

/-- Model of `Context.mount` (context.py lines 98–101): records the extra
providers (the Injector becomes `[local_provider, *providers]`) and
sets the mounted flag. -/
def ContextM.mount (c : ContextM) (providers : List Provider) : ContextM :=
  { c with mounted := true, extra_providers := providers }

/-- Model of `Context.register` (context.py lines 103–119): registration goes to
the context's local provider (the Python `name` keyword is the explicit
registration key). -/
def ContextM.register (c : ContextM) (inj : Injectable) (key : Option Key)
    (iface : Option Iface) (aslist : Bool) (force : Bool) :
    Except Err ContextM :=
  match Provider.register c.local_provider inj key iface aslist force with
  | .error e => .error e
  | .ok p => .ok { c with local_provider := p }

/-- Model of `Context.instance` (context.py lines 121–141): wraps a value as an
`Instance` injectable and registers it (named `registerInstance` here
because `instance` is a Lean keyword). -/
def ContextM.registerInstance (c : ContextM) (v : Value) (key : Option Key)
    (iface : Option Iface) (aslist : Bool) (force : Bool) :
    Except Err ContextM :=
  c.register (.Instance v) key iface aslist force

/-- Model of `Context.factory` (context.py lines 143–166): wraps a constructor
via `injectable_factory` with the given cache flag (the Python default
is `cache=True`) and registers it. -/
def ContextM.factory (c : ContextM) (fid : Nat) (ctor : Ctor) (cache : Bool)
    (key : Option Key) (iface : Option Iface) (aslist : Bool) (force : Bool) :
    Except Err ContextM :=
  c.register (injectable_factory fid ctor cache) key iface aslist force

/-- Model of `Context.get` (context.py lines 185–203): raises
`ContextNotMountedError` before `mount`, otherwise delegates to the
Injector's `get` over the mounted provider list. -/
def ContextM.get (c : ContextM) (fuel : Nat) (iface : Iface)
    (key : Option Key) (args : List Value) (st : InjState) :
    Except Err (Value × InjState) :=
  if c.mounted then inj_get c.provider_list fuel iface key args st
  else .error .ContextNotMountedError

/-- Model of `Context.get_list` (context.py lines 205–223): raises
`ContextNotMountedError` before `mount`, otherwise delegates to the
Injector's `get_list`. -/
def ContextM.get_list (c : ContextM) (fuel : Nat) (iface : Iface)
    (key : Option Key) (args : List Value) (st : InjState) :
    Except Err (List Value × InjState) :=
  if c.mounted then inj_get_list c.provider_list fuel iface key args st
  else .error .ContextNotMountedError

/-- Model of `Context.resolve` (context.py lines 168–183): raises
`ContextNotMountedError` before `mount`, otherwise wraps the
constructor as a cache-disabled factory via `injectable_factory` and
realizes it through the Injector. -/
def ContextM.resolve (c : ContextM) (fuel : Nat) (tfid : Nat) (ctor : Ctor)
    (args : List Value) (st : InjState) : Except Err (Value × InjState) :=
  if c.mounted then inj_resolve c.provider_list fuel tfid ctor args st
  else .error .ContextNotMountedError

/-- The root scope name of `stirrups/app.py` (line 17). -/
def ROOT : String := "__root"

/-- The application façade of `stirrups/app.py` (`class App`): a
registry of Providers keyed by scope name. -/
structure App where
  providers : List (String × Provider)

/-- Lookup of a scope name in the App's provider registry. -/
def appFind : List (String × Provider) → String → Option Provider
  | [], _ => none
  | (s1, p) :: r, s => if s1 == s then some p else appFind r s

/-- Model of `App._get_scope_provider` (app.py lines 220–240): the provider for
a named scope, created and registered on first use. -/
def App.get_scope_provider (a : App) (scope : String) : Provider × App :=
  match appFind a.providers scope with
  | some p => (p, a)
  | none =>
    (⟨some scope, []⟩, ⟨a.providers ++ [(scope, ⟨some scope, []⟩)]⟩)

/-- The providers of a list of scopes, each created on first use, in
the order the scopes are listed. -/
def App.scope_providers : App → List String → List Provider × App
  | a, [] => ([], a)
  | a, s :: ss =>
    ((a.get_scope_provider s).1 :: ((a.get_scope_provider s).2.scope_providers ss).1,
     ((a.get_scope_provider s).2.scope_providers ss).2)

/-- Model of `App.create_context` (app.py lines 149–189): collects the providers
of `{ROOT} ∪ scopes` (the Python `set` is modelled as first-occurrence
deduplication with ROOT first), constructs the context, and mounts it
over those providers. -/
def App.create_context (a : App) (selfVal : Value) (scopes : List String) :
    ContextM × App :=
  ((Context.init selfVal).mount
      (a.scope_providers ((ROOT :: scopes).dedup)).1,
   (a.scope_providers ((ROOT :: scopes).dedup)).2)

/-! Helper lemmas about the registry and provider scan. -/

theorem regFind_regSet_self (r : Registry) (k : Key) (e : RegEntry) :
    regFind (regSet r k e) k = some e := by
  induction r with
  | nil => simp [regSet, regFind]
  | cons kv r ih =>
    obtain ⟨k1, e1⟩ := kv
    by_cases h : (k1 == k) = true
    · simp [regSet, h, regFind]
    · simp [regSet, h, regFind, ih]

theorem regFind_mem (r : Registry) (k : Key) (e : RegEntry)
    (h : regFind r k = some e) : (k, e) ∈ r := by
  induction r with
  | nil => simp [regFind] at h
  | cons kv r ih =>
    obtain ⟨k1, e1⟩ := kv
    by_cases hk : (k1 == k) = true
    · have hk1 : k1 = k := eq_of_beq hk
      simp [regFind, hk] at h
      subst hk1
      simp [h]
    · simp [regFind, hk] at h
      exact List.mem_cons_of_mem _ (ih h)

theorem findEntry_mem (ps : List Provider) (k : Key) (e : RegEntry)
    (h : findEntry ps k = some e) :
    ∃ p, p ∈ ps ∧ regFind p.registry k = some e := by
  induction ps with
  | nil => simp [findEntry] at h
  | cons p ps ih =>
    simp only [findEntry] at h
    cases hr : regFind p.registry k with
    | some e1 =>
      rw [hr] at h
      exact ⟨p, List.mem_cons_self _ _, by rw [hr, Option.some_inj.mp h]⟩
    | none =>
      rw [hr] at h
      obtain ⟨q, hq, hqr⟩ := ih h
      exact ⟨q, List.mem_cons_of_mem _ hq, hqr⟩

theorem findEntry_cons_of_found (p : Provider) (ps : List Provider) (k : Key)
    (e : RegEntry) (h : regFind p.registry k = some e) :
    findEntry (p :: ps) k = some e := by
  simp [findEntry, h]

/-- An Injectable whose realization would insert the Factory identity
`fid` into the cache: a cache-enabled Factory with that identity. -/
def injectableCachesFid (inj : Injectable) (fid : Nat) : Bool :=
  match inj with
  | .Factory fid1 _ true => fid1 == fid
  | _ => false

/-- A registry entry holding an Injectable that caches under `fid`. -/
def entryCachesFid (e : RegEntry) (fid : Nat) : Bool :=
  match e with
  | .single inj => injectableCachesFid inj fid
  | .listMode injs => injs.any (fun i => injectableCachesFid i fid)

/-- No Injectable registered in any of the Providers caches under the
Factory identity `fid`. -/
def fidFree (ps : List Provider) (fid : Nat) : Bool :=
  ps.all (fun p => p.registry.all (fun kv => !entryCachesFid kv.2 fid))

theorem findEntry_single_fidFree (ps : List Provider) (k : Key)
    (inj : Injectable) (fid : Nat) (hfree : fidFree ps fid = true)
    (h : findEntry ps k = some (.single inj)) :
    injectableCachesFid inj fid = false := by
  obtain ⟨p, hp, hr⟩ := findEntry_mem ps k _ h
  have hm := regFind_mem _ _ _ hr
  have h1 := (List.all_eq_true.mp hfree) p hp
  have h2 := (List.all_eq_true.mp h1) (k, RegEntry.single inj) hm
  simpa [entryCachesFid] using h2

/-! Helper lemmas about the resolution engine, by induction on fuel. -/

theorem resolution_fresh_mono : ∀ fuel : Nat,
    (∀ ps iface key args st v st1,
      inj_get ps fuel iface key args st = .ok (v, st1) →
      st.fresh ≤ st1.fresh)
    ∧ (∀ ps inj args st v st1,
      realize_injectable ps fuel inj args st = .ok (v, st1) →
      st.fresh ≤ st1.fresh)
    ∧ (∀ ps params st vs st1,
      realize_deps ps fuel params st = .ok (vs, st1) →
      st.fresh ≤ st1.fresh) := by
  intro fuel
  induction fuel with
  | zero =>
    refine ⟨?_, ?_, ?_⟩ <;> intros <;>
      simp_all [inj_get, realize_injectable, realize_deps]
  | succ f ih =>
    obtain ⟨ihg, ihi, ihd⟩ := ih
    refine ⟨?_, ?_, ?_⟩
    · intro ps iface key args st v st1 h
      simp only [inj_get] at h
      split at h
      · exact absurd h (by simp)
      · exact ihi _ _ _ _ _ _ h
      · exact absurd h (by simp)
    · intro ps inj args st v st1 h
      simp only [realize_injectable] at h
      split at h
      · simp only [Except.ok.injEq, Prod.mk.injEq] at h
        obtain ⟨hv, hst⟩ := h
        subst hst
        exact Nat.le_refl _
      · rename_i fid c cch
        split at h
        · split at h
          · simp only [Except.ok.injEq, Prod.mk.injEq] at h
            obtain ⟨hv, hst⟩ := h
            subst hst
            exact Nat.le_refl _
          · split at h
            · exact absurd h (by simp)
            · rename_i vals st2 hdeps
              simp only [Except.ok.injEq, Prod.mk.injEq] at h
              have := ihd _ _ _ _ _ hdeps
              obtain ⟨hv, hst⟩ := h
              subst hst
              simpa using Nat.le_succ_of_le this
        · split at h
          · exact absurd h (by simp)
          · rename_i vals st2 hdeps
            simp only [Except.ok.injEq, Prod.mk.injEq] at h
            have := ihd _ _ _ _ _ hdeps
            obtain ⟨hv, hst⟩ := h
            subst hst
            simpa using Nat.le_succ_of_le this
    · intro ps params st vs st1 h
      simp only [realize_deps] at h
      split at h
      · simp only [Except.ok.injEq, Prod.mk.injEq] at h
        obtain ⟨hv, hst⟩ := h
        subst hst
        exact Nat.le_refl _
      · exact absurd h (by simp)
      · rename_i prm di rest
        split at h
        · exact absurd h (by simp)
        · rename_i v1 st2 hget
          split at h
          · exact absurd h (by simp)
          · rename_i vs2 st3 hdeps
            simp only [Except.ok.injEq, Prod.mk.injEq] at h
            obtain ⟨hv, hst⟩ := h
            subst hst
            exact Nat.le_trans (ihg _ _ _ _ _ _ _ hget) (ihd _ _ _ _ _ hdeps)

theorem resolution_cache_preserve : ∀ fuel : Nat, ∀ fid : Nat,
    (∀ ps iface key args st v st1, fidFree ps fid = true →
      cacheFind st.cache fid = none →
      inj_get ps fuel iface key args st = .ok (v, st1) →
      cacheFind st1.cache fid = none)
    ∧ (∀ ps inj args st v st1, fidFree ps fid = true →
      injectableCachesFid inj fid = false →
      cacheFind st.cache fid = none →
      realize_injectable ps fuel inj args st = .ok (v, st1) →
      cacheFind st1.cache fid = none)
    ∧ (∀ ps params st vs st1, fidFree ps fid = true →
      cacheFind st.cache fid = none →
      realize_deps ps fuel params st = .ok (vs, st1) →
      cacheFind st1.cache fid = none) := by
  intro fuel
  induction fuel with
  | zero =>
    intro fid
    refine ⟨?_, ?_, ?_⟩ <;> intros <;>
      simp_all [inj_get, realize_injectable, realize_deps]
  | succ f ih =>
    intro fid
    obtain ⟨ihg, ihi, ihd⟩ := ih fid
    refine ⟨?_, ?_, ?_⟩
    · intro ps iface key args st v st1 hfree hnc h
      simp only [inj_get] at h
      split at h
      · exact absurd h (by simp)
      · rename_i inj hfound
        exact ihi _ _ _ _ _ _ hfree
          (findEntry_single_fidFree _ _ _ _ hfree hfound) hnc h
      · exact absurd h (by simp)
    · intro ps inj args st v st1 hfree hinj hnc h
      simp only [realize_injectable] at h
      split at h
      · simp only [Except.ok.injEq, Prod.mk.injEq] at h
        obtain ⟨hv, hst⟩ := h
        subst hst
        exact hnc
      · rename_i fid1 c cch
        split at h
        · rename_i hcch
          split at h
          · simp only [Except.ok.injEq, Prod.mk.injEq] at h
            obtain ⟨hv, hst⟩ := h
            subst hst
            exact hnc
          · split at h
            · exact absurd h (by simp)
            · rename_i vals st2 hdeps
              simp only [Except.ok.injEq, Prod.mk.injEq] at h
              obtain ⟨hv, hst⟩ := h
              subst hst
              have hne : (fid1 == fid) = false := by
                subst hcch
                simpa [injectableCachesFid] using hinj
              simp only [cacheFind, hne]
              exact ihd _ _ _ _ _ hfree hnc hdeps
        · split at h
          · exact absurd h (by simp)
          · rename_i vals st2 hdeps
            simp only [Except.ok.injEq, Prod.mk.injEq] at h
            obtain ⟨hv, hst⟩ := h
            subst hst
            simpa using ihd _ _ _ _ _ hfree hnc hdeps
    · intro ps params st vs st1 hfree hnc h
      simp only [realize_deps] at h
      split at h
      · simp only [Except.ok.injEq, Prod.mk.injEq] at h
        obtain ⟨hv, hst⟩ := h
        subst hst
        exact hnc
      · exact absurd h (by simp)
      · rename_i prm di rest
        split at h
        · exact absurd h (by simp)
        · rename_i v1 st2 hget
          split at h
          · exact absurd h (by simp)
          · rename_i vs2 st3 hdeps
            simp only [Except.ok.injEq, Prod.mk.injEq] at h
            obtain ⟨hv, hst⟩ := h
            subst hst
            exact ihd _ _ _ _ _ hfree
              (ihg _ _ _ _ _ _ _ hfree hnc hget) hdeps

theorem inj_get_succ (ps : List Provider) (f : Nat) (iface : Iface)
    (key : Option Key) (args : List Value) (st : InjState) :
    inj_get ps (f + 1) iface key args st =
      match findEntry ps (effective_key key iface) with
      | none => .error (.InjectionError (effective_key key iface))
      | some (.single inj) => realize_injectable ps f inj args st
      | some (.listMode _) =>
        .error (.ModeMismatch (effective_key key iface)) := rfl

theorem realize_factory_true (ps : List Provider) (g : Nat) (fid : Nat)
    (c : Ctor) (args : List Value) (st : InjState) :
    realize_injectable ps (g + 1) (.Factory fid c true) args st =
      match cacheFind st.cache fid with
      | some v => .ok (v, st)
      | none =>
        match realize_deps ps g (c.params.drop args.length) st with
        | .error e => .error e
        | .ok (vals, st1) =>
          .ok (Value.mk c.name st1.fresh (args ++ vals),
            ⟨(fid, Value.mk c.name st1.fresh (args ++ vals)) :: st1.cache,
             st1.fresh + 1⟩) := rfl

theorem realize_factory_false (ps : List Provider) (g : Nat) (fid : Nat)
    (c : Ctor) (args : List Value) (st : InjState) :
    realize_injectable ps (g + 1) (.Factory fid c false) args st =
      match realize_deps ps g (c.params.drop args.length) st with
      | .error e => .error e
      | .ok (vals, st1) =>
        .ok (Value.mk c.name st1.fresh (args ++ vals),
          ⟨st1.cache, st1.fresh + 1⟩) := rfl

theorem realize_cached (ps : List Provider) (f : Nat) (fid : Nat) (c : Ctor)
    (args : List Value) (st : InjState) (v : Value) (st1 : InjState)
    (h : realize_injectable ps f (.Factory fid c true) args st = .ok (v, st1)) :
    cacheFind st1.cache fid = some v := by
  cases f with
  | zero => simp [realize_injectable] at h
  | succ g =>
    rw [realize_factory_true] at h
    split at h
    · rename_i v1 hc
      simp only [Except.ok.injEq, Prod.mk.injEq] at h
      obtain ⟨hv, hst⟩ := h
      subst hst hv
      exact hc
    · split at h
      · exact absurd h (by simp)
      · rename_i vals st2 hdeps
        simp only [Except.ok.injEq, Prod.mk.injEq] at h
        obtain ⟨hv, hst⟩ := h
        subst hst hv
        simp [cacheFind]

theorem realize_uncached_props (ps : List Provider) (f : Nat) (fid : Nat)
    (c : Ctor) (args : List Value) (st : InjState) (v : Value) (st1 : InjState)
    (h : realize_injectable ps f (.Factory fid c false) args st = .ok (v, st1)) :
    st.fresh ≤ v.id ∧ st1.fresh = v.id + 1 ∧
      ∀ fid0, fidFree ps fid0 = true → cacheFind st.cache fid0 = none →
        cacheFind st1.cache fid0 = none := by
  cases f with
  | zero => simp [realize_injectable] at h
  | succ g =>
    rw [realize_factory_false] at h
    split at h
    · exact absurd h (by simp)
    · rename_i vals st2 hdeps
      simp only [Except.ok.injEq, Prod.mk.injEq] at h
      obtain ⟨hv, hst⟩ := h
      subst hst
      subst hv
      refine ⟨(resolution_fresh_mono g).2.2 _ _ _ _ _ hdeps,
        by simp [Value.id], ?_⟩
      intro fid0 hfree hnc
      simpa using (resolution_cache_preserve g fid0).2.2 _ _ _ _ _
        hfree hnc hdeps

theorem get_factory_cached_second (ps : List Provider) (fuel : Nat)
    (iface : Iface) (key : Option Key) (args : List Value) (st : InjState)
    (v : Value) (st1 : InjState) (fid : Nat) (c : Ctor)
    (hfind : findEntry ps (effective_key key iface)
      = some (.single (.Factory fid c true)))
    (hok : inj_get ps fuel iface key args st = .ok (v, st1)) :
    inj_get ps fuel iface key args st1 = .ok (v, st1) := by
  cases fuel with
  | zero => simp [inj_get] at hok
  | succ f =>
    rw [inj_get_succ] at hok ⊢
    rw [hfind] at hok ⊢
    simp only [] at hok ⊢
    have hc := realize_cached _ _ _ _ _ _ _ _ hok
    cases f with
    | zero => simp [realize_injectable] at hok
    | succ g =>
      rw [realize_factory_true, hc]

theorem inj_get_list_succ (ps : List Provider) (f : Nat) (iface : Iface)
    (key : Option Key) (args : List Value) (st : InjState) :
    inj_get_list ps (f + 1) iface key args st =
      match findEntry ps (effective_key key iface) with
      | none => .error (.InjectionError (effective_key key iface))
      | some (.single _) => .error (.ModeMismatch (effective_key key iface))
      | some (.listMode injs) => realize_list ps f injs args st := rfl

theorem realize_deps_cons_some (ps : List Provider) (f : Nat) (prm : String)
    (di : Iface) (rest : List (String × Option Iface)) (st : InjState) :
    realize_deps ps (f + 1) ((prm, some di) :: rest) st =
      match inj_get ps f di none [] st with
      | .error _ =>
        .error (.DependencyInjectionError prm (generate_iface_key di))
      | .ok (v, st1) =>
        match realize_deps ps f rest st1 with
        | .error e => .error e
        | .ok (vs, st2) => .ok (v :: vs, st2) := rfl

theorem register_single_ok_find (r0 : Registry) (k : Key) (inj : Injectable)
    (force : Bool) (r : Registry)
    (h : Registry.register r0 k inj false force = .ok r) :
    regFind r k = some (.single inj) := by
  cases hf : regFind r0 k with
  | none =>
    simp [Registry.register, hf] at h
    subst h
    simpa using regFind_regSet_self r0 k (.single inj)
  | some e =>
    cases e with
    | single j =>
      cases force with
      | false => simp [Registry.register, hf] at h
      | true =>
        simp [Registry.register, hf] at h
        subst h
        simpa using regFind_regSet_self r0 k (.single inj)
    | listMode js => simp [Registry.register, hf] at h

/-! The claims. -/

/-- C8: key derivation is a deterministic function from an interface to
a string key — a user-declared type yields its declared name, the
integer type yields the fixed lowercase name "int" (likewise the other
built-ins), and two derivations of the same interface always produce
the same key. -/
theorem claim_C8 (n : String) (i1 i2 : Iface) (h : i1 = i2) :
    generate_iface_key (.user n) = n
    ∧ generate_iface_key .int = "int"
    ∧ generate_iface_key .str = "str"
    ∧ generate_iface_key .bool = "bool"
    ∧ generate_iface_key .float = "float"
    ∧ generate_iface_key i1 = generate_iface_key i2 := by
  subst h
  exact ⟨rfl, rfl, rfl, rfl, rfl, rfl⟩

/-- Witness for C8 at a concrete interface. -/
theorem claim_C8_witness :
    generate_iface_key (.user "A") = "A"
    ∧ generate_iface_key .int = "int"
    ∧ generate_iface_key .str = "str"
    ∧ generate_iface_key .bool = "bool"
    ∧ generate_iface_key .float = "float"
    ∧ generate_iface_key .int = generate_iface_key .int :=
  claim_C8 "A" .int .int rfl

/-- C2: for a key registered in single mode, a second registration
under the same key without the force flag fails with `ItemExists`
(leaving the registry unreturned and the prior value in place), while
a second registration with `force` replaces the prior value, so that a
subsequent `get` for that key dispatches to the newly registered
injectable. -/
theorem claim_C2 (r1 : Registry) (k : Key) (i1 i2 : Injectable)
    (f : Nat) (iface : Iface) (args : List Value) (st : InjState)
    (h : regFind r1 k = some (.single i1)) :
    Registry.register r1 k i2 false false = .error (.ItemExists k)
    ∧ Registry.register r1 k i2 false true
        = .ok (regSet r1 k (.single i2))
    ∧ regFind (regSet r1 k (.single i2)) k = some (.single i2)
    ∧ inj_get [⟨none, regSet r1 k (.single i2)⟩] (f + 1) iface (some k)
        args st
      = realize_injectable [⟨none, regSet r1 k (.single i2)⟩] f i2 args st := by
  refine ⟨?_, ?_, regFind_regSet_self r1 k (.single i2), ?_⟩
  · simp [Registry.register, h]
  · simp [Registry.register, h]
  · rw [inj_get_succ]
    have hfe : findEntry [⟨none, regSet r1 k (.single i2)⟩]
        (effective_key (some k) iface) = some (.single i2) := by
      simp [findEntry, effective_key, regFind_regSet_self]
    rw [hfe]

/-- Witness for C2 at a concrete registry. -/
theorem claim_C2_witness :
    Registry.register [("I", .single (.Instance (.mk "a" 0 [])))] "I"
        (.Instance (.mk "b" 1 [])) false false = .error (.ItemExists "I")
    ∧ regFind (regSet [("I", .single (.Instance (.mk "a" 0 [])))] "I"
        (.single (.Instance (.mk "b" 1 [])))) "I"
      = some (.single (.Instance (.mk "b" 1 []))) :=
  ⟨(claim_C2 [("I", .single (.Instance (.mk "a" 0 [])))] "I"
      (.Instance (.mk "a" 0 [])) (.Instance (.mk "b" 1 [])) 1 (.user "I")
      [] ⟨[], 0⟩ rfl).1,
   (claim_C2 [("I", .single (.Instance (.mk "a" 0 [])))] "I"
      (.Instance (.mk "a" 0 [])) (.Instance (.mk "b" 1 [])) 1 (.user "I")
      [] ⟨[], 0⟩ rfl).2.2.1⟩

/-- C6: the Injector's effective lookup key is the explicitly supplied
key when one is given and is otherwise derived from the requested
interface; at registration the explicit key likewise wins over the
iface-derived key and over the injectable's own key; and an injectable
registered under an explicit key is retrievable by passing that same
key to `get`. -/
theorem claim_C6 (k : Key) (i : Iface) (inj : Injectable)
    (ifc : Option Iface) (p p1 : Provider) (f : Nat) (args : List Value)
    (st : InjState)
    (hreg : Provider.register p inj (some k) ifc false false = .ok p1) :
    effective_key (some k) i = k
    ∧ effective_key none i = generate_iface_key i
    ∧ provider_effective_key (some k) ifc inj = k
    ∧ provider_effective_key none (some i) inj = generate_iface_key i
    ∧ provider_effective_key none none inj = inj.selfKey
    ∧ regFind p1.registry k = some (.single inj)
    ∧ inj_get [p1] (f + 1) i (some k) args st
        = realize_injectable [p1] f inj args st := by
  have hfind1 : regFind p1.registry k = some (.single inj) := by
    unfold Provider.register at hreg
    split at hreg
    · exact absurd hreg (by simp)
    · rename_i r hr0
      simp only [Except.ok.injEq] at hreg
      subst hreg
      simp only [provider_effective_key] at hr0
      exact register_single_ok_find p.registry k inj false r hr0
  refine ⟨rfl, rfl, rfl, rfl, rfl, hfind1, ?_⟩
  rw [inj_get_succ]
  have hfe : findEntry [p1] (effective_key (some k) i)
      = some (.single inj) := by
    simp [findEntry, effective_key, hfind1]
  rw [hfe]

/-- Witness for C6 at a concrete provider. -/
theorem claim_C6_witness :
    regFind (⟨none, [("x", .single (.Instance (.mk "A" 0 [])))]⟩ :
      Provider).registry "x" = some (.single (.Instance (.mk "A" 0 [])))
    ∧ inj_get [⟨none, [("x", .single (.Instance (.mk "A" 0 [])))]⟩] 2
        (.user "I") (some "x") [] ⟨[], 0⟩
      = realize_injectable [⟨none, [("x", .single (.Instance (.mk "A" 0 [])))]⟩]
          1 (.Instance (.mk "A" 0 [])) [] ⟨[], 0⟩ :=
  ⟨(claim_C6 "x" (.user "I") (.Instance (.mk "A" 0 [])) (some (.user "I"))
      ⟨none, []⟩ ⟨none, [("x", .single (.Instance (.mk "A" 0 [])))]⟩ 1 []
      ⟨[], 0⟩ rfl).2.2.2.2.2.1,
   (claim_C6 "x" (.user "I") (.Instance (.mk "A" 0 [])) (some (.user "I"))
      ⟨none, []⟩ ⟨none, [("x", .single (.Instance (.mk "A" 0 [])))]⟩ 1 []
      ⟨[], 0⟩ rfl).2.2.2.2.2.2⟩

/-- C9: a Context's `get`, `get_list` and `resolve` all fail with
`ContextNotMountedError` (performing no resolution) while the context
is unmounted; once `mount` has been called they delegate to the
Injector over the mounted provider list. -/
theorem claim_C9 (c : ContextM) (ps : List Provider) (f : Nat) (i : Iface)
    (kk : Option Key) (args : List Value) (st : InjState) (tfid : Nat)
    (ctor : Ctor) (hnm : c.mounted = false) :
    ContextM.get c f i kk args st = .error .ContextNotMountedError
    ∧ ContextM.get_list c f i kk args st = .error .ContextNotMountedError
    ∧ ContextM.resolve c f tfid ctor args st
        = .error .ContextNotMountedError
    ∧ (ContextM.mount c ps).mounted = true
    ∧ ContextM.get (ContextM.mount c ps) f i kk args st
        = inj_get ((ContextM.mount c ps).provider_list) f i kk args st
    ∧ ContextM.get_list (ContextM.mount c ps) f i kk args st
        = inj_get_list ((ContextM.mount c ps).provider_list) f i kk args st
    ∧ ContextM.resolve (ContextM.mount c ps) f tfid ctor args st
        = inj_resolve ((ContextM.mount c ps).provider_list) f tfid ctor
            args st := by
  refine ⟨?_, ?_, ?_, rfl, rfl, rfl, rfl⟩ <;>
    simp [ContextM.get, ContextM.get_list, ContextM.resolve, hnm]

/-- Witness for C9 at a freshly constructed context. -/
theorem claim_C9_witness :
    ContextM.get (Context.init (.mk "C" 0 [])) 3 (.user "C") none [] ⟨[], 0⟩
      = .error .ContextNotMountedError
    ∧ ContextM.get (ContextM.mount (Context.init (.mk "C" 0 [])) []) 3
        (.user "C") none [] ⟨[], 0⟩
      = inj_get ((ContextM.mount (Context.init (.mk "C" 0 []))
          []).provider_list) 3 (.user "C") none [] ⟨[], 0⟩ :=
  ⟨(claim_C9 (Context.init (.mk "C" 0 [])) [] 3 (.user "C") none [] ⟨[], 0⟩
      0 ⟨"T", []⟩ rfl).1,
   (claim_C9 (Context.init (.mk "C" 0 [])) [] 3 (.user "C") none [] ⟨[], 0⟩
      0 ⟨"T", []⟩ rfl).2.2.2.2.1⟩

/-- C10: every Context, at construction, registers itself as an
Instance in its own local provider under the key derived from its
class; after mounting, requesting the context's own class returns the
context object itself, and a later non-forced registration resolving
to that same key fails with `ItemExists`. -/
theorem claim_C10 (v : Value) (ps : List Provider) (f : Nat) (i : Iface)
    (kk : Option Key) (args : List Value) (st : InjState)
    (inj2 : Injectable) (kk2 : Option Key) (ifc2 : Option Iface)
    (hk : effective_key kk i = v.ctorName)
    (hk2 : provider_effective_key kk2 ifc2 inj2 = v.ctorName) :
    (Context.init v).local_provider.registry
      = [(v.ctorName, .single (.Instance v))]
    ∧ ContextM.get ((Context.init v).mount ps) (f + 2) i kk args st
      = .ok (v, st)
    ∧ ContextM.register (Context.init v) inj2 kk2 ifc2 false false
      = .error (.ItemExists v.ctorName) := by
  refine ⟨rfl, ?_, ?_⟩
  · show inj_get ((Context.init v).local_provider :: ps) (f + 1 + 1) i kk
      args st = .ok (v, st)
    rw [inj_get_succ, hk]
    have h1 : findEntry ((Context.init v).local_provider :: ps) v.ctorName
        = some (.single (.Instance v)) := by
      apply findEntry_cons_of_found
      show regFind [(v.ctorName, .single (.Instance v))] v.ctorName = _
      simp [regFind]
    rw [h1]
    rfl
  · have hreg : Provider.register (Context.init v).local_provider inj2 kk2
        ifc2 false false = .error (.ItemExists v.ctorName) := by
      unfold Provider.register
      rw [hk2]
      have hrr : Registry.register (Context.init v).local_provider.registry
          v.ctorName inj2 false false = .error (.ItemExists v.ctorName) := by
        show Registry.register [(v.ctorName, .single (.Instance v))]
          v.ctorName inj2 false false = _
        simp [Registry.register, regFind]
      rw [hrr]
    simp [ContextM.register, hreg]

/-- Witness for C10 at a concrete context value. -/
theorem claim_C10_witness :
    (Context.init (.mk "C" 7 [])).local_provider.registry
      = [("C", .single (.Instance (.mk "C" 7 [])))]
    ∧ ContextM.get ((Context.init (.mk "C" 7 [])).mount []) 2 (.user "C")
        none [] ⟨[], 0⟩ = .ok (.mk "C" 7 [], ⟨[], 0⟩)
    ∧ ContextM.register (Context.init (.mk "C" 7 []))
        (.Instance (.mk "X" 8 [])) (some "C") none false false
      = .error (.ItemExists "C") :=
  claim_C10 (.mk "C" 7 []) [] 0 (.user "C") none [] ⟨[], 0⟩
    (.Instance (.mk "X" 8 [])) (some "C") none rfl rfl

theorem inj_get_error_of_not_found (ps : List Provider) (fuel : Nat)
    (i : Iface) (args : List Value) (st : InjState)
    (h : findEntry ps (generate_iface_key i) = none) :
    ∃ e, inj_get ps fuel i none args st = .error e := by
  cases fuel with
  | zero => exact ⟨.OutOfFuel, rfl⟩
  | succ f =>
    refine ⟨.InjectionError (generate_iface_key i), ?_⟩
    rw [inj_get_succ, show effective_key none i = generate_iface_key i
      from rfl, h]

/-- C3: a request for an interface that no Provider in the Injector's
list holds fails with `InjectionError`; a request for a registered
interface one of whose declared dependencies cannot itself be resolved
fails with `DependencyInjectionError`, not `InjectionError`. -/
theorem claim_C3 (ps : List Provider) (f : Nat) (i : Iface)
    (kk : Option Key) (args : List Value) (st : InjState) (fid : Nat)
    (cn : String) (prm : String) (di : Iface) (cch : Bool) :
    (findEntry ps (effective_key kk i) = none →
      inj_get ps (f + 1) i kk args st
        = .error (.InjectionError (effective_key kk i)))
    ∧ (findEntry ps (effective_key kk i)
        = some (.single (.Factory fid ⟨cn, [(prm, some di)]⟩ cch)) →
      cacheFind st.cache fid = none →
      findEntry ps (generate_iface_key di) = none →
      inj_get ps (f + 3) i kk [] st
        = .error (.DependencyInjectionError prm (generate_iface_key di))) := by
  constructor
  · intro hnone
    rw [inj_get_succ, hnone]
  · intro hfind hnc hdep
    show inj_get ps (f + 2 + 1) i kk [] st = _
    rw [inj_get_succ, hfind]
    simp only []
    have hdeps : realize_deps ps (f + 1)
        ((⟨cn, [(prm, some di)]⟩ : Ctor).params.drop ([] : List Value).length)
        st = .error (.DependencyInjectionError prm (generate_iface_key di)) := by
      show realize_deps ps (f + 1) [(prm, some di)] st = _
      rw [realize_deps_cons_some]
      obtain ⟨e, he⟩ := inj_get_error_of_not_found ps f di [] st hdep
      rw [he]
    cases cch with
    | true =>
      show realize_injectable ps (f + 1 + 1) (.Factory fid
        ⟨cn, [(prm, some di)]⟩ true) [] st = _
      rw [realize_factory_true, hnc, hdeps]
    | false =>
      show realize_injectable ps (f + 1 + 1) (.Factory fid
        ⟨cn, [(prm, some di)]⟩ false) [] st = _
      rw [realize_factory_false, hdeps]

/-- Witness for C3: an empty Injector fails with `InjectionError`; an
Injector holding a factory with an unregistered dependency fails with
`DependencyInjectionError`. -/
theorem claim_C3_witness :
    inj_get [] 1 (.user "A") none [] ⟨[], 0⟩
      = .error (.InjectionError "A")
    ∧ inj_get
        [⟨none, [("B", .single (.Factory 1 ⟨"B", [("d", some (.user "D"))]⟩
          true))]⟩] 5 (.user "B") none [] ⟨[], 0⟩
      = .error (.DependencyInjectionError "d" "D") :=
  ⟨(claim_C3 [] 0 (.user "A") none [] ⟨[], 0⟩ 0 "B" "d" (.user "D")
      true).1 rfl,
   (claim_C3 [⟨none, [("B", .single (.Factory 1 ⟨"B",
        [("d", some (.user "D"))]⟩ true))]⟩] 2 (.user "B") none [] ⟨[], 0⟩
      1 "B" "d" (.user "D") true).2 rfl rfl rfl⟩

theorem realize_list_length : ∀ (fuel : Nat) (ps : List Provider)
    (injs : List Injectable) (args : List Value) (st : InjState)
    (vs : List Value) (st1 : InjState),
    realize_list ps fuel injs args st = .ok (vs, st1) →
    vs.length = injs.length := by
  intro fuel
  induction fuel with
  | zero => intros; simp_all [realize_list]
  | succ f ih =>
    intro ps injs args st vs st1 h
    simp only [realize_list] at h
    split at h
    · simp only [Except.ok.injEq, Prod.mk.injEq] at h
      obtain ⟨hv, hst⟩ := h
      subst hv
      simp
    · rename_i inj rest
      split at h
      · exact absurd h (by simp)
      · rename_i v1 st2 hri
        split at h
        · exact absurd h (by simp)
        · rename_i vs2 st3 hrl
          simp only [Except.ok.injEq, Prod.mk.injEq] at h
          obtain ⟨hv, hst⟩ := h
          subst hv
          simpa using ih _ _ _ _ _ _ hrl

theorem realize_list_instances : ∀ (fuel : Nat) (ps : List Provider)
    (ws : List Value) (args : List Value) (st : InjState) (vs : List Value)
    (st1 : InjState),
    realize_list ps fuel (ws.map Injectable.Instance) args st
      = .ok (vs, st1) →
    vs = ws ∧ st1 = st := by
  intro fuel
  induction fuel with
  | zero => intros; simp_all [realize_list]
  | succ f ih =>
    intro ps ws args st vs st1 h
    cases ws with
    | nil =>
      simp only [List.map_nil, realize_list, Except.ok.injEq,
        Prod.mk.injEq] at h
      exact ⟨h.1.symm, h.2.symm⟩
    | cons w ws1 =>
      simp only [List.map_cons, realize_list] at h
      cases f with
      | zero => simp [realize_injectable] at h
      | succ g =>
        rw [show realize_injectable ps (g + 1) (.Instance w) args st
          = .ok (w, st) from rfl] at h
        split at h
        · exact absurd h (by simp)
        · rename_i vs2 st3 hrl
          simp only [Except.ok.injEq, Prod.mk.injEq] at hrl
          obtain ⟨hw1, hst1⟩ := hrl
          subst hw1 hst1
          split at h
          · exact absurd h (by simp)
          · rename_i vs3 st4 hrl2
            simp only [Except.ok.injEq, Prod.mk.injEq] at h
            obtain ⟨hv, hst⟩ := h
            obtain ⟨h1, h2⟩ := ih _ _ _ _ _ _ hrl2
            subst h1 h2 hst
            exact ⟨hv.symm, rfl⟩

/-- C4: for a list-mode key holding N registered Injectables,
`get_list` returns exactly N realized values in registration order (an
`aslist` registration appends to the existing sequence, and
realization walks the sequence in insertion order — for Instances the
returned values are exactly the wrapped values in order). -/
theorem claim_C4 (ps : List Provider) (f : Nat) (i : Iface)
    (kk : Option Key) (args : List Value) (st st1 : InjState)
    (injs : List Injectable) (vs ws : List Value) (r : Registry) (k0 : Key)
    (injs0 : List Injectable) (inj0 : Injectable) (force0 : Bool)
    (hfind : findEntry ps (effective_key kk i) = some (.listMode injs))
    (hok : inj_get_list ps f i kk args st = .ok (vs, st1)) :
    vs.length = injs.length
    ∧ (injs = ws.map Injectable.Instance → vs = ws ∧ st1 = st)
    ∧ (regFind r k0 = some (.listMode injs0) →
        Registry.register r k0 inj0 true force0
          = .ok (regSet r k0 (.listMode (injs0 ++ [inj0])))) := by
  cases f with
  | zero => simp [inj_get_list] at hok
  | succ g =>
    rw [inj_get_list_succ, hfind] at hok
    simp only [] at hok
    refine ⟨realize_list_length g ps injs args st vs st1 hok, ?_, ?_⟩
    · intro hws
      subst hws
      exact realize_list_instances g ps ws args st vs st1 hok
    · intro hr
      simp [Registry.register, hr]

/-- Witness for C4: two Instances registered as a list are returned as
exactly those two values, in order. -/
theorem claim_C4_witness :
    ([Value.mk "x" 1 [], Value.mk "y" 2 []] : List Value).length
      = ([Injectable.Instance (.mk "x" 1 []),
          Injectable.Instance (.mk "y" 2 [])] : List Injectable).length
    ∧ ([Value.mk "x" 1 [], Value.mk "y" 2 []]
        = [Value.mk "x" 1 [], Value.mk "y" 2 []]
      ∧ (⟨[], 0⟩ : InjState) = ⟨[], 0⟩)
    ∧ Registry.register [("L", .listMode [.Instance (.mk "x" 1 [])])] "L"
        (.Instance (.mk "y" 2 [])) true false
      = .ok (regSet [("L", .listMode [.Instance (.mk "x" 1 [])])] "L"
          (.listMode ([.Instance (.mk "x" 1 [])] ++
            [.Instance (.mk "y" 2 [])]))) := by
  have h := claim_C4
    [⟨none, [("L", .listMode [.Instance (.mk "x" 1 []),
      .Instance (.mk "y" 2 [])])]⟩] 4 (.user "L") none [] ⟨[], 0⟩ ⟨[], 0⟩
    [.Instance (.mk "x" 1 []), .Instance (.mk "y" 2 [])]
    [Value.mk "x" 1 [], Value.mk "y" 2 []]
    [Value.mk "x" 1 [], Value.mk "y" 2 []]
    [("L", .listMode [.Instance (.mk "x" 1 [])])] "L"
    [.Instance (.mk "x" 1 [])] (.Instance (.mk "y" 2 [])) false rfl rfl
  exact ⟨h.1, h.2.1 rfl, h.2.2 rfl⟩

/-- C5: when two Providers both contain the requested key, the first
Provider in the Injector's list wins; `Context.mount` places the
context's local provider first (also through `App.create_context`), so
an Injectable registered directly on the Context shadows one
registered at the App level under the same key. -/
theorem claim_C5 (qs : List Provider) (p1 : Provider) (k1 : Key)
    (e1 : RegEntry) (c : ContextM) (ps : List Provider) (w : Value)
    (f : Nat) (i : Iface) (kk : Option Key) (args : List Value)
    (st : InjState) (a : App) (v0 : Value) (scopes : List String)
    (h1 : regFind p1.registry k1 = some e1)
    (hw : regFind c.local_provider.registry (effective_key kk i)
      = some (.single (.Instance w))) :
    findEntry (p1 :: qs) k1 = some e1
    ∧ (ContextM.mount c ps).provider_list = c.local_provider :: ps
    ∧ ContextM.get (ContextM.mount c ps) (f + 2) i kk args st = .ok (w, st)
    ∧ ((a.create_context v0 scopes).1).provider_list
        = (Context.init v0).local_provider
          :: (a.scope_providers ((ROOT :: scopes).dedup)).1 := by
  refine ⟨findEntry_cons_of_found _ _ _ _ h1, rfl, ?_, rfl⟩
  show inj_get (c.local_provider :: ps) (f + 1 + 1) i kk args st = .ok (w, st)
  rw [inj_get_succ, findEntry_cons_of_found _ _ _ _ hw]
  rfl

/-- Witness for C5: the context-local registration of key "C" shadows
an identically keyed registration in a later (App-level) provider. -/
theorem claim_C5_witness :
    findEntry [⟨none, [("y", .single (.Instance (.mk "B" 3 [])))]⟩,
        ⟨none, [("y", .single (.Instance (.mk "Z" 4 [])))]⟩] "y"
      = some (.single (.Instance (.mk "B" 3 [])))
    ∧ ContextM.get (ContextM.mount (Context.init (.mk "C" 7 []))
        [⟨some ROOT, [("C", .single (.Instance (.mk "Other" 9 [])))]⟩]) 2
        (.user "C") none [] ⟨[], 0⟩ = .ok (.mk "C" 7 [], ⟨[], 0⟩) :=
  ⟨(claim_C5 [⟨none, [("y", .single (.Instance (.mk "Z" 4 [])))]⟩]
      ⟨none, [("y", .single (.Instance (.mk "B" 3 [])))]⟩ "y"
      (.single (.Instance (.mk "B" 3 []))) (Context.init (.mk "C" 7 []))
      [⟨some ROOT, [("C", .single (.Instance (.mk "Other" 9 [])))]⟩]
      (.mk "C" 7 []) 0 (.user "C") none [] ⟨[], 0⟩ ⟨[]⟩ (.mk "C" 0 []) []
      rfl rfl).1,
   (claim_C5 [⟨none, [("y", .single (.Instance (.mk "Z" 4 [])))]⟩]
      ⟨none, [("y", .single (.Instance (.mk "B" 3 [])))]⟩ "y"
      (.single (.Instance (.mk "B" 3 []))) (Context.init (.mk "C" 7 []))
      [⟨some ROOT, [("C", .single (.Instance (.mk "Other" 9 [])))]⟩]
      (.mk "C" 7 []) 0 (.user "C") none [] ⟨[], 0⟩ ⟨[]⟩ (.mk "C" 0 []) []
      rfl rfl).2.2.1⟩

/-- C1: two `get` requests for a cache-enabled Factory through the same
Injector yield the identical realized value (and leave the state
untouched the second time); for a cache-disabled Factory each request
constructs a new value with a distinct allocation identity and the
Injector's cache is never populated for that Factory. -/
theorem claim_C1 (ps : List Provider) (fuel : Nat) (i : Iface)
    (kk : Option Key) (args : List Value) (st st1 st2 : InjState)
    (v v2 : Value) (fid : Nat) (c : Ctor) (cch : Bool)
    (hfind : findEntry ps (effective_key kk i)
      = some (.single (.Factory fid c cch)))
    (hok : inj_get ps fuel i kk args st = .ok (v, st1))
    (hok2 : inj_get ps fuel i kk args st1 = .ok (v2, st2)) :
    (cch = true → v2 = v ∧ st2 = st1)
    ∧ (cch = false → fidFree ps fid = true →
        cacheFind st.cache fid = none →
        v2.id ≠ v.id ∧ cacheFind st1.cache fid = none
        ∧ cacheFind st2.cache fid = none) := by
  constructor
  · intro hc
    subst hc
    have hsec := get_factory_cached_second ps fuel i kk args st v st1 fid c
      hfind hok
    rw [hsec] at hok2
    simp only [Except.ok.injEq, Prod.mk.injEq] at hok2
    exact ⟨hok2.1.symm, hok2.2.symm⟩
  · intro hc hfree hnc
    subst hc
    cases fuel with
    | zero => simp [inj_get] at hok
    | succ f =>
      rw [inj_get_succ, hfind] at hok hok2
      simp only [] at hok hok2
      obtain ⟨hle1, hfr1, hpres1⟩ :=
        realize_uncached_props ps f fid c args st v st1 hok
      obtain ⟨hle2, hfr2, hpres2⟩ :=
        realize_uncached_props ps f fid c args st1 v2 st2 hok2
      have h1 : cacheFind st1.cache fid = none := hpres1 fid hfree hnc
      refine ⟨?_, h1, hpres2 fid hfree h1⟩
      omega

/-- Witness for C1: a concrete cache-enabled Factory realized twice
returns the identical value and state. -/
theorem claim_C1_witness :
    inj_get [⟨none, [("A", .single (.Factory 0 ⟨"A", []⟩ true))]⟩] 3
        (.user "A") none [] ⟨[], 0⟩
      = .ok (Value.mk "A" 0 [], ⟨[(0, Value.mk "A" 0 [])], 1⟩)
    ∧ (Value.mk "A" 0 [] = Value.mk "A" 0 []
        ∧ (⟨[(0, Value.mk "A" 0 [])], 1⟩ : InjState)
          = ⟨[(0, Value.mk "A" 0 [])], 1⟩) :=
  ⟨rfl,
   (claim_C1 [⟨none, [("A", .single (.Factory 0 ⟨"A", []⟩ true))]⟩] 3
      (.user "A") none [] ⟨[], 0⟩ ⟨[(0, Value.mk "A" 0 [])], 1⟩
      ⟨[(0, Value.mk "A" 0 [])], 1⟩ (Value.mk "A" 0 []) (Value.mk "A" 0 [])
      0 ⟨"A", []⟩ true rfl rfl rfl).1 rfl⟩

/-- C7 counterexample: `resolve` does not leave the Injector's cache
unchanged — resolving a transient constructor whose dependency is a
cache-enabled Factory starts from an empty cache and ends with the
dependency's entry cached, refuting the claim that the cache is
unchanged (the transient Factory itself, identity 5, is indeed absent
from the final cache). -/
theorem claim_C7_counterexample :
    ContextM.resolve
        (ContextM.mount (Context.init (Value.mk "C" 0 []))
          [⟨some "d", [("D", .single (.Factory 0 ⟨"D", []⟩ true))]⟩])
        5 5 ⟨"T", [("d", some (.user "D"))]⟩ [] ⟨[], 10⟩
      = .ok (Value.mk "T" 11 [Value.mk "D" 10 []],
          ⟨[(0, Value.mk "D" 10 [])], 12⟩)
    ∧ ([(0, Value.mk "D" 10 [])] : List (Nat × Value)) ≠ [] :=
  ⟨rfl, by simp⟩

/-- C7 (amended): `resolve` realizes the constructor exactly once as a
transient cache-disabled Factory against the current Provider graph
and returns the freshly constructed value; the transient Factory is
never registered in any Provider and its own result is never cached —
but cache-enabled dependency Factories realized along the way are
cached as in any `get`, so the Injector's cache as a whole may
change. -/
theorem claim_C7_amended (ps : List Provider) (fuel : Nat) (tfid : Nat)
    (c : Ctor) (args : List Value) (st : InjState) (v : Value)
    (st1 : InjState)
    (hok : inj_resolve ps fuel tfid c args st = .ok (v, st1))
    (hfree : fidFree ps tfid = true)
    (hnc : cacheFind st.cache tfid = none) :
    inj_resolve ps fuel tfid c args st
      = realize_injectable ps fuel (injectable_factory tfid c false) args st
    ∧ cacheFind st1.cache tfid = none
    ∧ st.fresh ≤ v.id ∧ st1.fresh = v.id + 1 := by
  obtain ⟨h1, h2, h3⟩ := realize_uncached_props ps fuel tfid c args st v
    st1 hok
  exact ⟨rfl, h3 tfid hfree hnc, h1, h2⟩

/-- Witness for C7 (amended) at the counterexample's input: the
transient identity 5 stays uncached while the result is freshly
allocated. -/
theorem claim_C7_amended_witness :
    inj_resolve [⟨some "d", [("D", .single (.Factory 0 ⟨"D", []⟩ true))]⟩]
        5 5 ⟨"T", [("d", some (.user "D"))]⟩ [] ⟨[], 10⟩
      = realize_injectable
          [⟨some "d", [("D", .single (.Factory 0 ⟨"D", []⟩ true))]⟩] 5
          (injectable_factory 5 ⟨"T", [("d", some (.user "D"))]⟩ false) []
          ⟨[], 10⟩
    ∧ cacheFind ([(0, Value.mk "D" 10 [])] : List (Nat × Value)) 5 = none
    ∧ (10 : Nat) ≤ 11 ∧ (12 : Nat) = 11 + 1 := by
  have h := claim_C7_amended
    [⟨some "d", [("D", .single (.Factory 0 ⟨"D", []⟩ true))]⟩] 5 5
    ⟨"T", [("d", some (.user "D"))]⟩ [] ⟨[], 10⟩
    (Value.mk "T" 11 [Value.mk "D" 10 []])
    ⟨[(0, Value.mk "D" 10 [])], 12⟩ rfl rfl rfl
  exact ⟨h.1, h.2.1, h.2.2.1, h.2.2.2⟩

end Stirrups
